import Mathlib

/-!
# Verification of `gen_pair_pseudo.c`

Shallow embedding of the prime-pair generator `gen_pair_pseudo.c` (RSA-style
probable-prime pair generation following FIPS 186-3 B.3.1/B.3.3, built on GMP).

Modelling conventions:
* GMP arbitrary-precision integers (`mpz_t`) become `ℕ` (all values handled by
  the generator are non-negative) or `ℤ` where signed arithmetic occurs
  (`fnCompute_exponent_d`, and the `mpz_sub`/`mpz_abs` difference computation).
* The global random state `rndState` becomes an explicit stream `rnd : ℕ → ℕ`
  together with a cursor `idx`; `mpz_urandomb(x, rndState, k)` at cursor `idx`
  yields `rnd idx % 2 ^ k` (GMP guarantees a uniform value in `[0, 2^k)`) and
  advances the cursor.
* `mpz_probab_prime_p` is an oracle parameter `pp : ℕ → ℕ → ℤ` (candidate and
  round count to GMP's result: 2 definitely prime, 1 probably prime, 0
  composite); the code accepts when the result is `≥ 1`.
* The unbounded `while (1)` loops are given explicit fuel; running out of fuel
  is a distinct outcome (`outOfFuel` / `none`), separate from the program's own
  failure exits.
-/

namespace GenPairPseudo

/-- Outcome of `fnCreate_pseudo_prime`'s rejection-sampling loop:
a candidate was accepted (`break` at line 212 of the source), the attempt
counter reached `5 * nNumBits` and the process exited (`exit(1)` at line 219),
or the modelling fuel ran out with the loop still running. -/
inductive GenOut where
  | accepted (n : ℕ)
  | retryExhausted
  | outOfFuel
deriving DecidableEq

/-- Candidate formation, lines 152–172 of the source: draw `nNumBits - 1`
random bits into `n` (`mpz_urandomb`), add `2^(nNumBits-1)`
(`mpzOneShifted`), then add 1 if the result is even. `r` is the raw draw. -/
def mkCand (b r : ℕ) : ℕ :=
  if (r % 2 ^ (b - 1) + 2 ^ (b - 1)) % 2 = 0 then r % 2 ^ (b - 1) + 2 ^ (b - 1) + 1
  else r % 2 ^ (b - 1) + 2 ^ (b - 1)

/-- Shift amount for the minimum-difference test, line 180 of the source:
`j = nNumBits <= 100 ? 0 : nNumBits - 100`. -/
def diffExp (b : ℕ) : ℕ := if b ≤ 100 then 0 else b - 100

/-- The `while (1)` loop of `fnCreate_pseudo_prime` (lines 148–221).
Arguments: exponent `e` (`mpzE`), companion value `cmp` (`mpzCompare`),
target bit length `b` (`nNumBits`), primality rounds `reps` (`nNumTests`),
difference-test flag `dt` (`flTestDiff`), random stream `rnd` with cursor
`idx`, primality oracle `pp`, fuel, and the attempt counter `i`.
Result: outcome, final value of the counter `i`, final cursor.
Each iteration consumes exactly one `mpz_urandomb` draw.  The two `continue`
statements (difference filter, line 183; square filter, line 201) skip the
`i++` at line 216, exactly as in the source; only an attempt that reaches the
gcd/primality stage and fails it increments `i`, and the process exits when
the incremented counter reaches `5 * b` (line 217). -/
def genLoop (e cmp b reps : ℕ) (dt : Bool) (rnd : ℕ → ℕ) (pp : ℕ → ℕ → ℤ) :
    ℕ → ℕ → ℕ → GenOut × ℕ × ℕ
  | 0, idx, i => (GenOut.outOfFuel, i, idx)
  | fuel + 1, idx, i =>
    let n := mkCand b (rnd idx)
    if dt = true ∧ ((n : ℤ) - (cmp : ℤ)).natAbs ≤ 2 ^ diffExp b then
      genLoop e cmp b reps dt rnd pp fuel (idx + 1) i
    else if n * n < 2 ^ (2 * b - 1) then
      genLoop e cmp b reps dt rnd pp fuel (idx + 1) i
    else if Nat.gcd (n - 1) e = 1 ∧ 1 ≤ pp n reps then
      (GenOut.accepted n, i, idx + 1)
    else if 5 * b ≤ i + 1 then
      (GenOut.retryExhausted, i + 1, idx + 1)
    else
      genLoop e cmp b reps dt rnd pp fuel (idx + 1) (i + 1)

/-- Failure of `fnCompute_exponent_d`: the `exit(1)` at line 284 of the
source ("Exponent not relatively prime to modulus"). -/
inductive DeriveErr where
  | NotInvertible
deriving DecidableEq

deriving instance DecidableEq for Except

/-- GMP `mpz_invert e m`, per its documented semantics: if the inverse of `e`
modulo `m` exists (iff `gcd(e, m) = 1`), return it as the representative in
`[0, |m|)`; otherwise report failure.  (GMP documents the behaviour at
`m = 0` as undefined; it is modelled as failure, and every theorem that
relies on this function keeps `m` nonzero.) -/
def mpz_invert (x m : ℤ) : Option ℤ :=
  if m ≠ 0 ∧ Int.gcd x m = 1 then some (((x : ZMod m.natAbs)⁻¹).val : ℤ)
  else none

/-- `fnCompute_exponent_d` (lines 247–300): compute
`temp = p1*p2 - p1 - p2 + 1` (i.e. `(p1-1)(p2-1)`), invert `e` modulo `temp`
(exiting with `NotInvertible` when `mpz_invert` fails, line 282–285), then
compare the result against `2^nNumBits`, the Boolean in the result recording
whether the "Exponent too small" warning (line 291) was emitted.  The
returned pair is (value copied to `mpzD`, warning emitted?). -/
def fnCompute_exponent_d (p1 e p2 : ℤ) (b : ℕ) : Except DeriveErr (ℤ × Bool) :=
  match mpz_invert e (p1 * p2 - p1 - p2 + 1) with
  | none => Except.error DeriveErr.NotInvertible
  | some d => Except.ok (d, decide (d < 2 ^ b))

/-- The random-exponent rejection loop of `fnGet_exponent_e`
(lines 396–409): draw 256 bits (`mpz_urandomb`), retry while the draw is
even, below 65536, or above `2^256` (`mpzBoundE`); return the first draw
passing all three checks, together with the advanced stream cursor. -/
def expLoop (rnd : ℕ → ℕ) : ℕ → ℕ → Option (ℕ × ℕ)
  | 0, _ => none
  | fuel + 1, idx =>
    if (rnd idx % 2 ^ 256) % 2 = 0 then expLoop rnd fuel (idx + 1)
    else if rnd idx % 2 ^ 256 < 65536 then expLoop rnd fuel (idx + 1)
    else if 2 ^ 256 < rnd idx % 2 ^ 256 then expLoop rnd fuel (idx + 1)
    else some (rnd idx % 2 ^ 256, idx + 1)

/-- How the public exponent is chosen in `fnGet_exponent_e` (lines 386–412):
either the user types a value (the `Y` branch, returned unchanged and
consuming no randomness) or it is drawn by the rejection loop. -/
inductive ExpChoice where
  | explicit (v : ℕ)
  | random
deriving DecidableEq

/-- `fnGet_exponent_e` (lines 365–417), returning the exponent and the
advanced stream cursor. -/
def fnGet_exponent_e (c : ExpChoice) (rnd : ℕ → ℕ) (fuel idx : ℕ) :
    Option (ℕ × ℕ) :=
  match c with
  | ExpChoice.explicit v => some (v, idx)
  | ExpChoice.random => expLoop rnd fuel idx

/-- `NUMTESTS` (line 29). -/
def NUMTESTS : ℕ := 50

/-- The full generation pipeline of `main` (lines 49–120): select the
exponent, generate the first prime (no companion, `mpzP2` still `0`,
difference test off), generate the second prime (companion `p`, difference
test on), then derive `d`; the single random stream is consumed sequentially
by the three drawing stages.  `none` models any failing stage (including
fuel exhaustion of a loop). -/
def runPipeline (nlen : ℕ) (c : ExpChoice) (rnd : ℕ → ℕ) (pp : ℕ → ℕ → ℤ)
    (fuel : ℕ) : Option (ℕ × ℕ × ℕ × ℤ) :=
  match fnGet_exponent_e c rnd fuel 0 with
  | none => none
  | some (e, idx1) =>
    match genLoop e 0 (nlen / 2) NUMTESTS false rnd pp fuel idx1 0 with
    | (GenOut.accepted p, _, idx2) =>
      (match genLoop e p (nlen / 2) NUMTESTS true rnd pp fuel idx2 0 with
       | (GenOut.accepted q, _, _) =>
         (match fnCompute_exponent_d (p : ℤ) (e : ℤ) (q : ℤ) (nlen / 2) with
          | Except.ok (d, _) => some (e, p, q, d)
          | Except.error _ => none)
       | _ => none)
    | _ => none

/-- Store update: `mpz_set(dst, v)` on a store of caller-visible `mpz_t`
objects addressed by `A`. -/
def writeStore {A : Type} [DecidableEq A] (σ : A → ℤ) (a : A) (v : ℤ) :
    A → ℤ :=
  fun x => if x = a then v else σ x

/-- `fnCreate_pseudo_prime` (lines 130–238) at the level of the caller's
`mpz_t` store: the function reads `mpzE` and `mpzCompare`, runs the
rejection loop on local variables, and its only write to a caller-visible
object is `mpz_set(mpzPrime, n)` at line 224 (reached only when a candidate
is accepted; on `RetryExhausted` the process exits at line 219 without
reaching it).  The locals `n`, `nSq`, `temp`, `mpzOneShifted` are
function-local `mpz_t`s, cleared before return. -/
def fnCreate_pseudo_prime {A : Type} [DecidableEq A] (aPrime aE aCompare : A)
    (b reps : ℕ) (dt : Bool) (rnd : ℕ → ℕ) (pp : ℕ → ℕ → ℤ) (fuel : ℕ)
    (σ : A → ℤ) : GenOut × (A → ℤ) :=
  match genLoop (σ aE).toNat (σ aCompare).toNat b reps dt rnd pp fuel 0 0 with
  | (GenOut.accepted n, _, _) => (GenOut.accepted n, writeStore σ aPrime (n : ℤ))
  | (out, _, _) => (out, σ)

/-- `fnCompute_exponent_d` (lines 247–300) at the level of the caller's
`mpz_t` store: reads `mpzP1`, `mpzE`, `mpzP2`; its only caller-visible
write is `mpz_set(mpzD, n)` at line 294, reached only when the inversion
succeeded. -/
def fnCompute_exponent_d_st {A : Type} [DecidableEq A] (aP1 aE aP2 aD : A)
    (b : ℕ) (σ : A → ℤ) : Except DeriveErr (A → ℤ) :=
  match fnCompute_exponent_d (σ aP1) (σ aE) (σ aP2) b with
  | Except.ok (d, _) => Except.ok (writeStore σ aD d)
  | Except.error err => Except.error err

/-- Every candidate formed at the top of the loop has exactly `b` significant
bits and is odd: the forced top bit and the parity fix never overflow into
bit `b`. -/
theorem mkCand_bounds (b r : ℕ) (hb : 1 ≤ b) :
    2 ^ (b - 1) ≤ mkCand b r ∧ mkCand b r < 2 ^ b ∧ mkCand b r % 2 = 1 := by
  have hpow : 2 ^ b = 2 * 2 ^ (b - 1) := by
    conv_lhs => rw [show b = b - 1 + 1 by omega]
    rw [pow_succ]; ring
  have hm : r % 2 ^ (b - 1) < 2 ^ (b - 1) :=
    Nat.mod_lt _ (pow_pos (by norm_num) _)
  unfold mkCand
  split_ifs with h <;> omega

/-- Every accepted value of the loop is of the form `mkCand b (rnd idx)` for
some cursor position `idx`, and in the accepting iteration the difference
filter (when enabled), the square filter, and the gcd/primality stage were
all passed. -/
theorem genLoop_accepted_shape (e cmp b reps : ℕ) (dt : Bool) (rnd : ℕ → ℕ)
    (pp : ℕ → ℕ → ℤ) (fuel idx i n : ℕ)
    (h : (genLoop e cmp b reps dt rnd pp fuel idx i).1 = GenOut.accepted n) :
    ∃ k, n = mkCand b (rnd k) ∧
      ¬(dt = true ∧ ((n : ℤ) - (cmp : ℤ)).natAbs ≤ 2 ^ diffExp b) ∧
      ¬(n * n < 2 ^ (2 * b - 1)) ∧
      Nat.gcd (n - 1) e = 1 ∧ 1 ≤ pp n reps := by
  induction fuel generalizing idx i with
  | zero => simp [genLoop] at h
  | succ fuel ih =>
    simp only [genLoop] at h
    split_ifs at h with h1 h2 h3 h4
    all_goals first
      | exact ih (idx + 1) i h
      | exact ih (idx + 1) (i + 1) h
      | (simp only [Prod.fst] at h
         cases h
         exact ⟨idx, rfl, h1, h2, h3⟩)

/-- C1: every candidate accepted by `fnCreate_pseudo_prime` with target bit
length `b ≥ 2` satisfies `2^(b-1) ≤ n < 2^b` and is odd: forcing bit `b-1`
after drawing `b-1` random bits, followed by the add-1 parity fix, never
pushes `n` to `b+1` significant bits. -/
theorem accepted_bitlen_and_odd (e cmp b reps : ℕ) (dt : Bool) (rnd : ℕ → ℕ)
    (pp : ℕ → ℕ → ℤ) (fuel idx i n : ℕ) (hb : 2 ≤ b)
    (h : (genLoop e cmp b reps dt rnd pp fuel idx i).1 = GenOut.accepted n) :
    2 ^ (b - 1) ≤ n ∧ n < 2 ^ b ∧ n % 2 = 1 := by
  obtain ⟨k, hk, -⟩ := genLoop_accepted_shape e cmp b reps dt rnd pp fuel idx i n h
  rw [hk]
  exact mkCand_bounds b (rnd k) (by omega)

/-- Concrete run witnessing `accepted_bitlen_and_odd`: with `b = 2`, a zero
random stream and an always-accepting primality oracle, the loop accepts
`n = 3` on its first iteration. -/
theorem accepted_bitlen_and_odd_witness :
    2 ≤ 2 ∧
    (genLoop 1 0 2 50 false (fun _ => 0) (fun _ _ => 2) 1 0 0).1 =
      GenOut.accepted 3 ∧
    (2 ^ (2 - 1) ≤ 3 ∧ 3 < 2 ^ 2 ∧ 3 % 2 = 1) :=
  ⟨le_refl 2, by decide,
    accepted_bitlen_and_odd 1 0 2 50 false (fun _ => 0) (fun _ _ => 2) 1 0 0 3
      (le_refl 2) (by decide)⟩

/-- `diffExp` is truncated subtraction: `max 0 (b - 100)` computed in `ℕ`. -/
theorem diffExp_eq (b : ℕ) : diffExp b = b - 100 := by
  unfold diffExp; split <;> omega

/-- C2 (amended): only attempts that pass the difference and square-size
filters ever increment the attempt counter `i`; starting from a counter value
below the ceiling, the counter never exceeds `5 * b`, and the loop exits with
`RetryExhausted` exactly when the counter reaches `5 * b`. -/
theorem genLoop_counter_bound (e cmp b reps : ℕ) (dt : Bool) (rnd : ℕ → ℕ)
    (pp : ℕ → ℕ → ℤ) (fuel idx i : ℕ) (hi : i < 5 * b) :
    (genLoop e cmp b reps dt rnd pp fuel idx i).2.1 ≤ 5 * b ∧
      ((genLoop e cmp b reps dt rnd pp fuel idx i).1 = GenOut.retryExhausted →
        (genLoop e cmp b reps dt rnd pp fuel idx i).2.1 = 5 * b) := by
  induction fuel generalizing idx i with
  | zero =>
    refine ⟨Nat.le_of_lt hi, fun h => ?_⟩
    cases h
  | succ fuel ih =>
    simp only [genLoop]
    split_ifs with h1 h2 h3 h4
    · exact ih (idx + 1) i hi
    · exact ih (idx + 1) i hi
    · exact ⟨Nat.le_of_lt hi, fun h => nomatch h⟩
    · constructor
      · show i + 1 ≤ 5 * b
        omega
      · intro _
        show i + 1 = 5 * b
        omega
    · exact ih (idx + 1) (i + 1) (by omega)

/-- Concrete run witnessing `genLoop_counter_bound`: with `b = 2` and an even
exponent `e = 2`, every attempt reaches the gcd stage and fails it (accepted
candidates are odd, so `gcd(n-1, 2) = 2`), and after `5 * 2 = 10` counted
attempts the loop exits with `RetryExhausted` and counter exactly `10`. -/
theorem genLoop_counter_bound_witness :
    0 < 5 * 2 ∧
    ((genLoop 2 0 2 50 false (fun _ => 0) (fun _ _ => 2) 10 0 0).2.1 ≤ 5 * 2 ∧
      ((genLoop 2 0 2 50 false (fun _ => 0) (fun _ _ => 2) 10 0 0).1 =
          GenOut.retryExhausted →
        (genLoop 2 0 2 50 false (fun _ => 0) (fun _ _ => 2) 10 0 0).2.1 = 5 * 2)) :=
  ⟨by norm_num,
    genLoop_counter_bound 2 0 2 50 false (fun _ => 0) (fun _ _ => 2) 10 0 0
      (by norm_num)⟩

/-- C2 counterexample: with `b = 2` (claimed ceiling `5 * b = 10`), companion
`3` and the difference test enabled, a zero random stream makes every attempt
produce the candidate `3`, which the difference filter rejects via `continue`
without incrementing the counter: after `11 > 10` attempts the loop is still
running (`outOfFuel`), it has neither accepted a candidate nor failed with
`RetryExhausted`, and the attempt counter is still `0`.  This refutes both
"at most `5 × bitLen` attempts in total" and "every attempt, regardless of
which filter rejects it, counts toward this ceiling". -/
theorem genLoop_attempts_counterexample :
    genLoop 1 3 2 50 true (fun _ => 0) (fun _ _ => 2) 11 0 0 =
      (GenOut.outOfFuel, 0, 11) := by
  decide

/-- C4: every candidate accepted by `fnCreate_pseudo_prime` with exponent `e`
and round count `reps` satisfies `gcd(n - 1, e) = 1` and was accepted by the
probabilistic primality test (`mpz_probab_prime_p` result ≥ 1); a candidate
failing either condition is never returned. -/
theorem accepted_coprime_and_probab_prime (e cmp b reps : ℕ) (dt : Bool)
    (rnd : ℕ → ℕ) (pp : ℕ → ℕ → ℤ) (fuel idx i n : ℕ)
    (h : (genLoop e cmp b reps dt rnd pp fuel idx i).1 = GenOut.accepted n) :
    Nat.gcd (n - 1) e = 1 ∧ 1 ≤ pp n reps := by
  obtain ⟨k, -, -, -, h4, h5⟩ :=
    genLoop_accepted_shape e cmp b reps dt rnd pp fuel idx i n h
  exact ⟨h4, h5⟩

/-- Concrete run witnessing `accepted_coprime_and_probab_prime`: the loop with
`e = 5` accepts `n = 3`, and indeed `gcd(2, 5) = 1` and the oracle reported
`2 ≥ 1`. -/
theorem accepted_coprime_and_probab_prime_witness :
    (genLoop 5 0 2 50 false (fun _ => 0) (fun _ _ => 2) 1 0 0).1 =
      GenOut.accepted 3 ∧
    (Nat.gcd (3 - 1) 5 = 1 ∧ 1 ≤ (2 : ℤ)) :=
  ⟨by decide,
    accepted_coprime_and_probab_prime 5 0 2 50 false (fun _ => 0) (fun _ _ => 2)
      1 0 0 3 (by decide)⟩

/-- C3: for an accepted pair `(p, q)` of target bit length `b` — `p` from the
first `fnCreate_pseudo_prime` call (difference test off) and `q` from the
second call with companion `p` and the difference test on — the primes are
distinct, `|p - q| > 2^(b - 100)` (exponent in truncated `ℕ` subtraction,
i.e. `max 0 (b-100)`), and `p·q ≥ 2^(2b - 1)`; the product bound follows
because each accepted candidate `n` passes the filter `n² ≥ 2^(2b-1)`. -/
theorem accepted_pair_separated_and_large (e b reps c0 : ℕ) (rnd : ℕ → ℕ)
    (pp : ℕ → ℕ → ℤ) (fuel1 fuel2 idx1 idx2 p q : ℕ)
    (hp : (genLoop e c0 b reps false rnd pp fuel1 idx1 0).1 = GenOut.accepted p)
    (hq : (genLoop e p b reps true rnd pp fuel2 idx2 0).1 = GenOut.accepted q) :
    p ≠ q ∧ 2 ^ (b - 100) < ((p : ℤ) - (q : ℤ)).natAbs ∧
      2 ^ (2 * b - 1) ≤ p * q := by
  obtain ⟨-, -, -, hpSq, -, -⟩ :=
    genLoop_accepted_shape e c0 b reps false rnd pp fuel1 idx1 0 p hp
  obtain ⟨-, -, hqDiff, hqSq, -, -⟩ :=
    genLoop_accepted_shape e p b reps true rnd pp fuel2 idx2 0 q hq
  rw [not_and, not_le] at hqDiff
  have hdiff : 2 ^ (b - 100) < ((q : ℤ) - (p : ℤ)).natAbs := by
    rw [← diffExp_eq]
    exact hqDiff rfl
  have hcomm : ((p : ℤ) - (q : ℤ)).natAbs = ((q : ℤ) - (p : ℤ)).natAbs := by
    rw [← Int.natAbs_neg, neg_sub]
  rw [not_lt] at hpSq hqSq
  have hone : 0 < 2 ^ (b - 100) := pow_pos (by norm_num) _
  refine ⟨?_, ?_, ?_⟩
  · intro hpq
    rw [hpq, sub_self, Int.natAbs_zero] at hcomm
    omega
  · omega
  · have hsq : 2 ^ (2 * b - 1) * 2 ^ (2 * b - 1) ≤ (p * q) * (p * q) := by
      calc 2 ^ (2 * b - 1) * 2 ^ (2 * b - 1)
          ≤ (p * p) * (q * q) := Nat.mul_le_mul hpSq hqSq
        _ = (p * q) * (p * q) := by ring
    exact Nat.mul_self_le_mul_self_iff.mp hsq

/-- Concrete run witnessing `accepted_pair_separated_and_large` at `b = 4`:
the first call accepts `p = 13`, the second (companion `13`, difference test
on) accepts `q = 15`; indeed `13 ≠ 15`, `|13 - 15| = 2 > 1 = 2^0` and
`13 · 15 = 195 ≥ 128 = 2^7`. -/
theorem accepted_pair_separated_and_large_witness :
    ((genLoop 1 0 4 50 false (fun k => if k = 0 then 4 else 7) (fun _ _ => 2)
        1 0 0).1 = GenOut.accepted 13 ∧
      (genLoop 1 13 4 50 true (fun k => if k = 0 then 4 else 7) (fun _ _ => 2)
        1 1 0).1 = GenOut.accepted 15) ∧
    (13 ≠ 15 ∧ 2 ^ (4 - 100) < ((13 : ℤ) - (15 : ℤ)).natAbs ∧
      2 ^ (2 * 4 - 1) ≤ 13 * 15) :=
  ⟨⟨by decide, by decide⟩,
    accepted_pair_separated_and_large 1 4 50 0
      (fun k => if k = 0 then 4 else 7) (fun _ _ => 2) 1 1 0 1 13 15
      (by decide) (by decide)⟩

/-- Evaluation helper: `fnCompute_exponent_d` returns exactly `c` whenever
`c` is the canonical representative of the inverse of `e` modulo the computed
`temp = p1*p2 - p1 - p2 + 1` (certified by `e * c = 1` in `ZMod`). -/
theorem fnCompute_eq_ok (p e q c : ℤ) (b : ℕ)
    (hm : p * q - p - q + 1 ≠ 0)
    (hg : Int.gcd e (p * q - p - q + 1) = 1)
    (hc0 : 0 ≤ c) (hlt : c < ((p * q - p - q + 1).natAbs : ℤ))
    (hc : (e : ZMod (p * q - p - q + 1).natAbs) *
        (c : ZMod (p * q - p - q + 1).natAbs) = 1) :
    fnCompute_exponent_d p e q b = Except.ok (c, decide (c < 2 ^ b)) := by
  haveI : NeZero (p * q - p - q + 1).natAbs := ⟨by omega⟩
  unfold fnCompute_exponent_d mpz_invert
  rw [if_pos ⟨hm, hg⟩]
  have hinv : (e : ZMod (p * q - p - q + 1).natAbs)⁻¹ =
      (c : ZMod (p * q - p - q + 1).natAbs) :=
    ZMod.inv_eq_of_mul_eq_one _ _ _ hc
  rw [hinv]
  have hval : (((c : ZMod (p * q - p - q + 1).natAbs)).val : ℤ) = c := by
    rw [ZMod.val_intCast]
    exact Int.emod_eq_of_lt hc0 hlt
  rw [hval]

/-- C5 (amended): for `p, q ≥ 1` with `φ = (p-1)(q-1) > 1` and
`gcd(e, φ) = 1`, the quantity `p·q - p - q + 1` the code computes equals
`(p-1)(q-1)`, and `fnCompute_exponent_d` returns `d` with
`(d·e) mod φ = 1`. -/
theorem compute_d_inverse (p q e : ℤ) (b : ℕ) (hp : 1 ≤ p) (hq : 1 ≤ q)
    (hphi : 1 < (p - 1) * (q - 1))
    (hg : Int.gcd e ((p - 1) * (q - 1)) = 1) :
    p * q - p - q + 1 = (p - 1) * (q - 1) ∧
      ∃ d w, fnCompute_exponent_d p e q b = Except.ok (d, w) ∧
        (d * e) % ((p - 1) * (q - 1)) = 1 := by
  have hphi_eq : p * q - p - q + 1 = (p - 1) * (q - 1) := by ring
  have hphi0 : (p - 1) * (q - 1) ≠ 0 := by omega
  have hfn : fnCompute_exponent_d p e q b =
      Except.ok ((((e : ZMod ((p - 1) * (q - 1)).natAbs)⁻¹).val : ℤ),
        decide ((((e : ZMod ((p - 1) * (q - 1)).natAbs)⁻¹).val : ℤ) < 2 ^ b)) := by
    unfold fnCompute_exponent_d mpz_invert
    rw [hphi_eq, if_pos ⟨hphi0, hg⟩]
  set n := ((p - 1) * (q - 1)).natAbs with hn
  have hn2 : 2 ≤ n := by omega
  haveI : NeZero n := ⟨by omega⟩
  have hu : IsUnit (e : ZMod n) := by
    have hic : IsCoprime e ((p - 1) * (q - 1)) :=
      Int.gcd_eq_one_iff_coprime.mp hg
    have hmap := hic.map (Int.castRingHom (ZMod n))
    have hz : (((p - 1) * (q - 1) : ℤ) : ZMod n) = 0 := by
      have : ((p - 1) * (q - 1) : ℤ) = (n : ℤ) := by omega
      rw [this, Int.cast_natCast, ZMod.natCast_self]
    rw [map_mul] at hmap
    simp only [Int.coe_castRingHom] at hmap
    rw [Int.cast_mul] at hz
    rw [hz] at hmap
    exact isCoprime_zero_right.mp hmap
  have hmul : (e : ZMod n) * (e : ZMod n)⁻¹ = 1 := ZMod.mul_inv_of_unit _ hu
  refine ⟨hphi_eq, _, _, hfn, ?_⟩
  have hv : ((((e : ZMod n)⁻¹).val : ℕ) : ZMod n) = (e : ZMod n)⁻¹ := by
    rw [ZMod.natCast_val, ZMod.cast_id]
  have hcast :
      (((((e : ZMod n)⁻¹).val : ℤ) * e : ℤ) : ZMod n) = 1 := by
    push_cast
    rw [hv, mul_comm]
    exact hmul
  have hdvd : (n : ℤ) ∣ ((((e : ZMod n)⁻¹).val : ℤ) * e - 1) := by
    rw [← ZMod.intCast_zmod_eq_zero_iff_dvd, Int.cast_sub, Int.cast_one, hcast,
      sub_self]
  have hnφ : (n : ℤ) = (p - 1) * (q - 1) := by omega
  rw [hnφ] at hdvd
  obtain ⟨k, hk⟩ := hdvd
  have h2 : (((e : ZMod n)⁻¹).val : ℤ) * e = 1 + (p - 1) * (q - 1) * k := by
    linarith
  rw [h2, Int.add_mul_emod_self_left]
  exact Int.emod_eq_of_lt (by norm_num) hphi

/-- Concrete instance witnessing `compute_d_inverse`: `p = 3`, `q = 5`,
`e = 3`, so `φ = 8`, and the returned `d = 3` satisfies `3·3 mod 8 = 1`. -/
theorem compute_d_inverse_witness :
    ((1 : ℤ) ≤ 3 ∧ (1 : ℤ) ≤ 5 ∧ (1 : ℤ) < ((3 : ℤ) - 1) * ((5 : ℤ) - 1) ∧
      Int.gcd 3 (((3 : ℤ) - 1) * ((5 : ℤ) - 1)) = 1) ∧
    ((3 : ℤ) * 5 - 3 - 5 + 1 = ((3 : ℤ) - 1) * ((5 : ℤ) - 1) ∧
      ∃ d w, fnCompute_exponent_d 3 3 5 2 = Except.ok (d, w) ∧
        (d * 3) % (((3 : ℤ) - 1) * ((5 : ℤ) - 1)) = 1) :=
  ⟨⟨by norm_num, by norm_num, by norm_num, by decide⟩,
    compute_d_inverse 3 5 3 2 (by norm_num) (by norm_num) (by norm_num)
      (by decide)⟩

/-- C5 counterexample: the claim as stated quantifies over all `p, q ≥ 1`
with `gcd(e, (p-1)(q-1)) = 1`.  At `p = q = 2`, `e = 1` the hypotheses hold
(`φ = 1`, `gcd(1, 1) = 1`), the code returns `d = 0` (the inverse of `1` in
the zero ring `ℤ/1`), and no return value could satisfy the claimed
`(d·e) mod φ = 1`, since every integer is `0` modulo `1`. -/
theorem compute_d_counterexample :
    fnCompute_exponent_d 2 1 2 8 = Except.ok (0, true) ∧
      ¬((0 : ℤ) * 1) % (((2 : ℤ) - 1) * ((2 : ℤ) - 1)) = 1 := by
  constructor
  · have h1 : fnCompute_exponent_d 2 1 2 8 =
        Except.ok (0, decide ((0 : ℤ) < 2 ^ 8)) :=
      fnCompute_eq_ok 2 1 2 0 8 (by norm_num) (by decide) le_rfl (by decide)
        (by decide)
    rw [h1]
    norm_num
  · decide

/-- C6: for `p, q ≥ 2`, `fnCompute_exponent_d` fails with `NotInvertible`
exactly when `gcd(e, (p-1)(q-1)) ≠ 1`; for `e` sharing a common factor with
`φ` it fails rather than returning a value, and when `gcd(e, φ) = 1` it
never fails. -/
theorem compute_d_not_invertible_iff (p q e : ℤ) (b : ℕ) (hp : 2 ≤ p)
    (hq : 2 ≤ q) :
    fnCompute_exponent_d p e q b = Except.error DeriveErr.NotInvertible ↔
      Int.gcd e ((p - 1) * (q - 1)) ≠ 1 := by
  have hphi_eq : p * q - p - q + 1 = (p - 1) * (q - 1) := by ring
  have hphi0 : (p - 1) * (q - 1) ≠ 0 :=
    mul_ne_zero (by omega) (by omega)
  unfold fnCompute_exponent_d mpz_invert
  rw [hphi_eq]
  by_cases hg : Int.gcd e ((p - 1) * (q - 1)) = 1
  · rw [if_pos ⟨hphi0, hg⟩]
    simp [hg]
  · rw [if_neg (by tauto)]
    simp [hg]

/-- Concrete instance witnessing `compute_d_not_invertible_iff`: `p = q = 3`,
`e = 2` shares the factor `2` with `φ = 4`, and the code fails with
`NotInvertible`. -/
theorem compute_d_not_invertible_iff_witness :
    ((2 : ℤ) ≤ 3 ∧ (2 : ℤ) ≤ 3) ∧
      fnCompute_exponent_d 3 2 3 8 = Except.error DeriveErr.NotInvertible :=
  ⟨⟨by norm_num, by norm_num⟩,
    (compute_d_not_invertible_iff 3 3 2 8 (by norm_num) (by norm_num)).mpr
      (by decide)⟩

/-- C9: the small-exponent warning never alters the returned value or control
flow: whenever `fnCompute_exponent_d` returns `(d, w)` at warning threshold
`b1`, it returns the same `d` at any other threshold `b2` (the value is
independent of the warning check), and the warning flag is emitted exactly
when `d < 2^b1`. -/
theorem compute_d_warning_frame (p e q : ℤ) (b1 b2 : ℕ) (d : ℤ) (w : Bool)
    (h : fnCompute_exponent_d p e q b1 = Except.ok (d, w)) :
    (∃ w2, fnCompute_exponent_d p e q b2 = Except.ok (d, w2)) ∧
      (w = true ↔ d < 2 ^ b1) := by
  unfold fnCompute_exponent_d at h ⊢
  cases hmi : mpz_invert e (p * q - p - q + 1) with
  | none =>
    rw [hmi] at h
    cases h
  | some d0 =>
    rw [hmi] at h
    simp only [Except.ok.injEq, Prod.mk.injEq] at h
    obtain ⟨hd, hw⟩ := h
    subst hd
    subst hw
    exact ⟨⟨decide (d0 < 2 ^ b2), rfl⟩, by simp⟩

/-- Evaluation of `fnCompute_exponent_d` at `p = 3`, `e = 3`, `q = 5`,
threshold `2`: `φ = 8`, `d = 3`, warning emitted (`3 < 4`). -/
theorem compute_d_warning_frame_ok : fnCompute_exponent_d 3 3 5 2 = Except.ok (3, true) := by
  have h1 : fnCompute_exponent_d 3 3 5 2 =
      Except.ok (3, decide ((3 : ℤ) < 2 ^ 2)) :=
    fnCompute_eq_ok 3 3 5 3 2 (by norm_num) (by decide) (by norm_num) (by decide)
      (by decide)
  rw [h1]
  norm_num

/-- Concrete instance witnessing `compute_d_warning_frame`: at `p = 3`,
`e = 3`, `q = 5` the function returns `d = 3` with the warning emitted at
threshold `b1 = 2` (`3 < 4`), and returns the same `d = 3` at threshold
`b2 = 5`. -/
theorem compute_d_warning_frame_witness :
    fnCompute_exponent_d 3 3 5 2 = Except.ok (3, true) ∧
      ((∃ w2, fnCompute_exponent_d 3 3 5 5 = Except.ok (3, w2)) ∧
        (true = true ↔ (3 : ℤ) < 2 ^ 2)) :=
  ⟨compute_d_warning_frame_ok,
    compute_d_warning_frame 3 3 5 2 5 3 true compute_d_warning_frame_ok⟩

/-- C7: when the exponent is randomly selected, `fnGet_exponent_e` returns
the first 256-bit draw that is odd and within bounds, and the returned `e`
satisfies `65536 ≤ e ≤ 2^256` and `e` odd. -/
theorem exponent_first_accepted (rnd : ℕ → ℕ) (fuel k e k' : ℕ)
    (h : expLoop rnd fuel k = some (e, k')) :
    (e % 2 = 1 ∧ 65536 ≤ e ∧ e ≤ 2 ^ 256) ∧
      ∃ i, k ≤ i ∧ e = rnd i % 2 ^ 256 ∧ k' = i + 1 ∧
        ∀ j, k ≤ j → j < i →
          ¬((rnd j % 2 ^ 256) % 2 = 1 ∧ 65536 ≤ rnd j % 2 ^ 256 ∧
            rnd j % 2 ^ 256 ≤ 2 ^ 256) := by
  induction fuel generalizing k with
  | zero => cases h
  | succ fuel ih =>
    simp only [expLoop] at h
    split_ifs at h with h1 h2 h3
    · obtain ⟨hprop, i, hki, he, hk', hmin⟩ := ih (k + 1) h
      refine ⟨hprop, i, by omega, he, hk', fun j hkj hji => ?_⟩
      rcases Nat.eq_or_lt_of_le hkj with hkj' | hkj'
      · subst hkj'
        intro hacc
        omega
      · exact hmin j hkj' hji
    · obtain ⟨hprop, i, hki, he, hk', hmin⟩ := ih (k + 1) h
      refine ⟨hprop, i, by omega, he, hk', fun j hkj hji => ?_⟩
      rcases Nat.eq_or_lt_of_le hkj with hkj' | hkj'
      · subst hkj'
        intro hacc
        omega
      · exact hmin j hkj' hji
    · obtain ⟨hprop, i, hki, he, hk', hmin⟩ := ih (k + 1) h
      refine ⟨hprop, i, by omega, he, hk', fun j hkj hji => ?_⟩
      rcases Nat.eq_or_lt_of_le hkj with hkj' | hkj'
      · subst hkj'
        intro hacc
        omega
      · exact hmin j hkj' hji
    · simp only [Option.some.injEq, Prod.mk.injEq] at h
      obtain ⟨he, hk'⟩ := h
      subst he
      subst hk'
      exact ⟨⟨by omega, by omega, by omega⟩, k, le_rfl, rfl, rfl,
        fun j hkj hji => absurd (lt_of_le_of_lt hkj hji) (lt_irrefl k)⟩

/-- Concrete run witnessing `exponent_first_accepted`: the stream draws `2`
(even, rejected) and then `65537` (odd, in range, accepted). -/
theorem exponent_first_accepted_witness :
    expLoop (fun k => if k = 0 then 2 else 65537) 2 0 = some (65537, 2) ∧
      ((65537 % 2 = 1 ∧ 65536 ≤ 65537 ∧ 65537 ≤ 2 ^ 256) ∧
        ∃ i, 0 ≤ i ∧ 65537 = (if i = 0 then 2 else 65537) % 2 ^ 256 ∧
          2 = i + 1 ∧
          ∀ j, 0 ≤ j → j < i →
            ¬(((if j = 0 then 2 else 65537) % 2 ^ 256) % 2 = 1 ∧
              65536 ≤ (if j = 0 then 2 else 65537) % 2 ^ 256 ∧
              (if j = 0 then 2 else 65537) % 2 ^ 256 ≤ 2 ^ 256)) :=
  ⟨by decide,
    exponent_first_accepted (fun k => if k = 0 then 2 else 65537) 2 0 65537 2
      (by decide)⟩

/-- Pointwise-equal random streams drive `expLoop` identically. -/
theorem expLoop_congr (r1 r2 : ℕ → ℕ) (hr : ∀ i, r1 i = r2 i) :
    ∀ fuel k, expLoop r1 fuel k = expLoop r2 fuel k := by
  intro fuel
  induction fuel with
  | zero => intro k; rfl
  | succ fuel ih => intro k; simp only [expLoop, hr, ih]

/-- Pointwise-equal random streams drive `genLoop` identically. -/
theorem genLoop_congr (r1 r2 : ℕ → ℕ) (hr : ∀ i, r1 i = r2 i)
    (e cmp b reps : ℕ) (dt : Bool) (pp : ℕ → ℕ → ℤ) :
    ∀ fuel idx i, genLoop e cmp b reps dt r1 pp fuel idx i =
      genLoop e cmp b reps dt r2 pp fuel idx i := by
  intro fuel
  induction fuel with
  | zero => intro idx i; rfl
  | succ fuel ih => intro idx i; simp only [genLoop, hr, ih]

/-- C8: determinism — two runs of the pipeline with the same key length, the
same exponent choice, the same primality test, and identically seeded random
sources (modelled as pointwise-equal draw streams) consume the stream
identically and produce identical outputs `(e, p, q, d)`. -/
theorem pipeline_deterministic (nlen : ℕ) (c : ExpChoice) (r1 r2 : ℕ → ℕ)
    (pp : ℕ → ℕ → ℤ) (fuel : ℕ) (hr : ∀ i, r1 i = r2 i) :
    runPipeline nlen c r1 pp fuel = runPipeline nlen c r2 pp fuel := by
  have he : fnGet_exponent_e c r1 fuel 0 = fnGet_exponent_e c r2 fuel 0 := by
    cases c with
    | explicit v => rfl
    | random => exact expLoop_congr r1 r2 hr fuel 0
  unfold runPipeline
  rw [he]
  simp only [genLoop_congr r1 r2 hr]

/-- Concrete instance witnessing `pipeline_deterministic`: two syntactically
different but pointwise-equal streams give equal pipeline results. -/
theorem pipeline_deterministic_witness :
    runPipeline 4 (ExpChoice.explicit 1) (fun k => k + 0) (fun _ _ => 2) 3 =
      runPipeline 4 (ExpChoice.explicit 1) (fun k => k) (fun _ _ => 2) 3 :=
  pipeline_deterministic 4 (ExpChoice.explicit 1) (fun k => k + 0) (fun k => k)
    (fun _ _ => 2) 3 (fun _ => rfl)

/-- C10: frame property at the public interface — `fnCreate_pseudo_prime`
writes only its output object `mpzPrime` (every other caller-visible object,
in particular `mpzE` and `mpzCompare`, is unchanged), and
`fnCompute_exponent_d` writes only `mpzD` (leaving `mpzP1`, `mpzE`, `mpzP2`
unchanged), even though all big integers are passed by mutable reference. -/
theorem frame_only_output_written {A : Type} [DecidableEq A]
    (aPrime aE aCompare aP1 aE' aP2 aD : A) (b reps : ℕ) (dt : Bool)
    (rnd : ℕ → ℕ) (pp : ℕ → ℕ → ℤ) (fuel : ℕ) (σ τ τ' : A → ℤ) (a a' : A)
    (ha : a ≠ aPrime) (ha' : a' ≠ aD)
    (hok : fnCompute_exponent_d_st aP1 aE' aP2 aD b τ = Except.ok τ') :
    (fnCreate_pseudo_prime aPrime aE aCompare b reps dt rnd pp fuel σ).2 a =
        σ a ∧
      τ' a' = τ a' := by
  constructor
  · unfold fnCreate_pseudo_prime
    rcases hG : genLoop (σ aE).toNat (σ aCompare).toNat b reps dt rnd pp
        fuel 0 0 with ⟨out, i, idx⟩
    cases out <;> simp [writeStore, ha]
  · unfold fnCompute_exponent_d_st at hok
    rcases hF : fnCompute_exponent_d (τ aP1) (τ aE') (τ aP2) b with err | dw
    · rw [hF] at hok
      cases hok
    · obtain ⟨d, w⟩ := dw
      rw [hF] at hok
      simp only [Except.ok.injEq] at hok
      subst hok
      simp [writeStore, ha']

/-- Concrete instance witnessing `frame_only_output_written`: addresses in
`ℕ`, a failing-free `fnCompute_exponent_d` run at `(3, 3, 5)`, and two
non-output addresses. -/
theorem frame_only_output_written_witness :
    ((1 : ℕ) ≠ 0 ∧ (4 : ℕ) ≠ 6 ∧
      fnCompute_exponent_d_st 3 4 5 6 2
          (fun x => if x = 3 then 3 else if x = 4 then 3 else if x = 5 then 5 else 0) =
        Except.ok
          (writeStore
            (fun x => if x = 3 then 3 else if x = 4 then 3 else if x = 5 then 5 else 0)
            6 3)) ∧
    ((fnCreate_pseudo_prime 0 1 2 2 50 false (fun _ => 0) (fun _ _ => 2) 1
          (fun _ => 0)).2 1 = (fun _ : ℕ => (0 : ℤ)) 1 ∧
      writeStore
          (fun x => if x = 3 then 3 else if x = 4 then 3 else if x = 5 then 5 else 0)
          6 3 4 =
        (fun x : ℕ => if x = 3 then (3 : ℤ) else if x = 4 then 3 else if x = 5 then 5 else 0) 4) := by
  have hok : fnCompute_exponent_d_st 3 4 5 6 2
      (fun x => if x = 3 then (3 : ℤ) else if x = 4 then 3 else if x = 5 then 5 else 0) =
      Except.ok
        (writeStore
          (fun x => if x = 3 then (3 : ℤ) else if x = 4 then 3 else if x = 5 then 5 else 0)
          6 3) := by
    unfold fnCompute_exponent_d_st
    rw [show (fun x => if x = 3 then (3 : ℤ) else if x = 4 then 3 else if x = 5 then 5 else 0) (3 : ℕ) = 3 from rfl,
      show (fun x => if x = 3 then (3 : ℤ) else if x = 4 then 3 else if x = 5 then 5 else 0) (4 : ℕ) = 3 from rfl,
      show (fun x => if x = 3 then (3 : ℤ) else if x = 4 then 3 else if x = 5 then 5 else 0) (5 : ℕ) = 5 from rfl,
      compute_d_warning_frame_ok]
  exact ⟨⟨by norm_num, by norm_num, hok⟩,
    frame_only_output_written 0 1 2 3 4 5 6 2 50 false (fun _ => 0)
      (fun _ _ => 2) 1 (fun _ => 0) _ _ 1 4 (by norm_num) (by norm_num) hok⟩

end GenPairPseudo
